import Mathlib

/-!
# Verification of the chunked CSV-to-Excel splitter

Shallow embedding of `src/csv_to_excel.py`. The input record sequence is an
abstract `List α` (a row is a record; row equality captures equal columns and
values). `pd.read_csv(input_csv, chunksize=chunk_size)` is modelled by
`chunksOf`, which cuts the input into blocks of `chunk_size` rows (the last
possibly shorter). The accumulate-and-flush loop of `convert_csv_to_excel` is
a fold over those chunks carrying the mutable locals `current_data`,
`current_rows` and `file_counter`; each written `.xlsx` artifact is one
element of the resulting `artifacts` list, in part order. `rows_per_file`
comes from `argparse` with `type=int`, so it is modelled as an `Int` (the CLI
accepts values ≤ 0 as well).
-/

namespace CsvToExcel

universe u

variable {α : Type u}

/-- `chunk_size = 50000` from line 31 of the source. -/
def chunk_size : Nat := 50000

/-- The chunk iterator `pd.read_csv(input_csv, chunksize=n)`: cut `l` into
blocks of `n` rows each, the last block possibly shorter.  (`max n 1` only
guards termination; the source always uses `n = chunk_size = 50000 ≥ 1`.) -/
def chunksOf (n : Nat) (l : List α) : List (List α) :=
  match l with
  | [] => []
  | x :: xs => ((x :: xs).take (max n 1)) :: chunksOf n ((x :: xs).drop (max n 1))
termination_by l.length
decreasing_by
  simp only [List.length_drop, List.length_cons]
  omega

/-- The mutable locals of the loop in `convert_csv_to_excel` (lines 34–37),
plus the list of artifacts written so far, in part order. -/
structure SplitState (α : Type u) where
  current_data : List (List α)
  current_rows : Nat
  file_counter : Nat
  artifacts : List (List α)

/-- Lines 34–36: `current_data = []`, `current_rows = 0`, `file_counter = 1`. -/
def initState : SplitState α :=
  { current_data := [], current_rows := 0, file_counter := 1, artifacts := [] }

/-- One iteration of the `for chunk in csv_iterator` loop (lines 41–69):
append the chunk, bump the row count, and if `current_rows >= rows_per_file`
write `pd.concat(current_data)` as the next artifact and reset the
accumulator. -/
def processChunk (rows_per_file : Int) (s : SplitState α) (chunk : List α) :
    SplitState α :=
  if ((s.current_rows + chunk.length : Nat) : Int) ≥ rows_per_file then
    { current_data := []
      current_rows := 0
      file_counter := s.file_counter + 1
      artifacts := s.artifacts ++ [(s.current_data ++ [chunk]).flatten] }
  else
    { s with current_data := s.current_data ++ [chunk]
             current_rows := s.current_rows + chunk.length }

/-- The trailing flush `if current_data:` (lines 72–77), returning all
artifacts written, in part order. -/
def finishState (s : SplitState α) : List (List α) :=
  if s.current_data.isEmpty then s.artifacts
  else s.artifacts ++ [s.current_data.flatten]

/-- `convert_csv_to_excel` (lines 7–83) as the list of artifacts it writes,
in part order. -/
def convert_csv_to_excel (rows_per_file : Int) (input : List α) :
    List (List α) :=
  finishState ((chunksOf chunk_size input).foldl (processChunk rows_per_file) initState)

/-- The `argparse` default for the `--rows` flag (line 88). -/
def ROWS_DEFAULT : Int := 500000

/-- The validation at lines 93–96: values above 1,000,000 are reset to
1,000,000; all other values pass through unchanged. -/
def clampRows (r : Int) : Int :=
  if r > 1000000 then 1000000 else r

/-- Whether the validation at lines 93–95 prints its warning. -/
def rowsWarning (r : Int) : Bool :=
  r > 1000000

/-- The whole program run after argument parsing: the existence check at
lines 12–14 (`sys.exit(1)` before any processing), then the conversion.
Returns the exit status together with the artifacts written. -/
def run_program (inputExists : Bool) (rowsArg : Int) (input : List α) :
    Nat × List (List α) :=
  if inputExists then (0, convert_csv_to_excel (clampRows rowsArg) input)
  else (1, [])

/-! ## Structure of the chunk list -/

theorem chunksOf_nil (n : Nat) : chunksOf n ([] : List α) = [] := by
  rw [chunksOf]

theorem chunksOf_cons (n : Nat) (x : α) (xs : List α) :
    chunksOf n (x :: xs)
      = ((x :: xs).take (max n 1)) :: chunksOf n ((x :: xs).drop (max n 1)) := by
  rw [chunksOf]

theorem chunksOf_ne_nil (n : Nat) (l : List α) (h : l ≠ []) :
    chunksOf n l = l.take (max n 1) :: chunksOf n (l.drop (max n 1)) := by
  cases l with
  | nil => exact absurd rfl h
  | cons x xs => exact chunksOf_cons n x xs

theorem chunksOf_eq_nil_iff (n : Nat) (l : List α) :
    chunksOf n l = [] ↔ l = [] := by
  constructor
  · intro h
    by_contra hne
    rw [chunksOf_ne_nil n l hne] at h
    exact List.cons_ne_nil _ _ h
  · intro h
    subst h
    exact chunksOf_nil n

/-- Concatenating the chunks gives back the input. -/
theorem chunksOf_flatten (n : Nat) (l : List α) : (chunksOf n l).flatten = l := by
  have key : ∀ (k : Nat) (l : List α), l.length ≤ k → (chunksOf n l).flatten = l := by
    intro k
    induction k with
    | zero =>
      intro l hl
      have : l = [] := List.eq_nil_of_length_eq_zero (Nat.le_zero.mp hl)
      subst this
      simp [chunksOf_nil]
    | succ k ih =>
      intro l hl
      by_cases h : l = []
      · subst h; simp [chunksOf_nil]
      · rw [chunksOf_ne_nil n l h]
        have hp : 0 < l.length := List.length_pos.mpr h
        have hd : (l.drop (max n 1)).length ≤ k := by
          simp only [List.length_drop]
          have : 1 ≤ max n 1 := Nat.le_max_right n 1
          omega
        rw [List.flatten_cons, ih _ hd, List.take_append_drop]
  exact key l.length l le_rfl

/-- Shape of the chunk list: every chunk is nonempty, no chunk exceeds `n`
rows, and every chunk except the last has exactly `n` rows. -/
def chunksPat (n : Nat) : List (List α) → Prop
  | [] => True
  | c :: cs => 0 < c.length ∧ c.length ≤ n ∧ (cs = [] ∨ c.length = n)
      ∧ chunksPat n cs

theorem chunksOf_pat (n : Nat) (h1 : 1 ≤ n) (l : List α) :
    chunksPat n (chunksOf n l) := by
  have key : ∀ (k : Nat) (l : List α), l.length ≤ k → chunksPat n (chunksOf n l) := by
    intro k
    induction k with
    | zero =>
      intro l hl
      have : l = [] := List.eq_nil_of_length_eq_zero (Nat.le_zero.mp hl)
      subst this
      simp [chunksOf_nil, chunksPat]
    | succ k ih =>
      intro l hl
      by_cases h : l = []
      · subst h; simp [chunksOf_nil, chunksPat]
      · rw [chunksOf_ne_nil n l h]
        have hp : 0 < l.length := List.length_pos.mpr h
        refine ⟨?_, ?_, ?_, ?_⟩
        · simp only [List.length_take]
          omega
        · simp only [List.length_take]
          omega
        · by_cases hd : l.drop (max n 1) = []
          · left
            rw [hd, chunksOf_nil]
          · right
            have : max n 1 < l.length := by
              have := List.length_pos.mpr hd
              simp only [List.length_drop] at this
              omega
            simp only [List.length_take]
            omega
        · apply ih
          simp only [List.length_drop]
          omega
  exact key l.length l le_rfl

/-! ## The accumulate-and-flush loop -/

/-- The flush branch of `processChunk`, spelled out. -/
theorem processChunk_flush (P : Int) (s : SplitState α) (c : List α)
    (hf : P ≤ (s.current_rows : Int) + (c.length : Int)) :
    processChunk P s c =
      { current_data := [], current_rows := 0, file_counter := s.file_counter + 1,
        artifacts := s.artifacts ++ [(s.current_data ++ [c]).flatten] } := by
  unfold processChunk
  rw [if_pos (by push_cast; omega)]

/-- The buffering branch of `processChunk`, spelled out. -/
theorem processChunk_buffer (P : Int) (s : SplitState α) (c : List α)
    (hf : (s.current_rows : Int) + (c.length : Int) < P) :
    processChunk P s c =
      { s with current_data := s.current_data ++ [c]
               current_rows := s.current_rows + c.length } := by
  unfold processChunk
  rw [if_neg (by push_cast; omega)]

/-- Processing chunks only appends rows: the rows written so far plus the
rows still buffered always equal the rows consumed so far. -/
theorem foldl_flatten (P : Int) (cs : List (List α)) :
    ∀ s : SplitState α,
      (cs.foldl (processChunk P) s).artifacts.flatten
          ++ (cs.foldl (processChunk P) s).current_data.flatten
        = s.artifacts.flatten ++ s.current_data.flatten ++ cs.flatten := by
  induction cs with
  | nil => intro s; simp
  | cons c cs ih =>
    intro s
    rw [List.foldl_cons]
    by_cases hf : P ≤ (s.current_rows : Int) + (c.length : Int)
    · rw [processChunk_flush P s c hf, ih]
      simp [List.flatten_append, List.append_assoc]
    · rw [processChunk_buffer P s c (by omega), ih]
      simp [List.flatten_append, List.append_assoc]

/-- A mid-loop artifact, flushed at line 62 of the source: it is nonempty,
holds at least `rows_per_file` rows, and consists of `m` previously buffered
full chunks (which together held fewer than `rows_per_file` rows, unless the
buffer was empty) plus one final chunk of at most `n` rows. -/
def MidArt (P : Int) (n : Nat) (a : List α) : Prop :=
  0 < a.length ∧ P ≤ (a.length : Int) ∧
    ∃ m : Nat, a.length ≤ (m + 1) * n ∧ (((m * n : Nat) : Int) < P ∨ m = 0)

/-- Invariant on the accumulator while chunks are still arriving: the row
count tallies the buffer, only full chunks are buffered, and a nonempty
buffer is strictly below the flush threshold. -/
def GoodAcc (P : Int) (n : Nat) (s : SplitState α) : Prop :=
  s.current_rows = (s.current_data.map List.length).sum ∧
  (∀ c ∈ s.current_data, c.length = n) ∧
  (s.current_data = [] ∨ (s.current_rows : Int) < P)

/-- What survives of the invariant once the final, possibly short, chunk has
been consumed. -/
def FinAcc (P : Int) (s : SplitState α) : Prop :=
  s.current_rows = (s.current_data.map List.length).sum ∧
  (∀ c ∈ s.current_data, 0 < c.length) ∧
  (s.current_data = [] ∨ (s.current_rows : Int) < P)

theorem sum_map_length_const {cd : List (List α)} {n : Nat}
    (h : ∀ c ∈ cd, c.length = n) :
    (cd.map List.length).sum = cd.length * n := by
  induction cd with
  | nil => simp
  | cons c cs ih =>
    simp only [List.map_cons, List.sum_cons, List.length_cons]
    rw [h c (List.mem_cons_self c cs), ih (fun d hd => h d (List.mem_cons_of_mem _ hd))]
    ring

/-- An empty accumulator is well formed regardless of the artifacts written. -/
theorem goodAcc_empty (P : Int) (n : Nat) (fc : Nat) (A : List (List α)) :
    GoodAcc P n (SplitState.mk [] 0 fc A) := by
  unfold GoodAcc
  simp

/-- Master lemma for the loop: starting from a well-formed accumulator, every
artifact present after the loop is either an old one or a mid-loop flush
satisfying `MidArt`, and the final accumulator satisfies `FinAcc`. -/
theorem loop_master (P : Int) (n : Nat) (hn : 0 < n) :
    ∀ (cs : List (List α)) (s : SplitState α), chunksPat n cs → GoodAcc P n s →
      (∀ a ∈ (cs.foldl (processChunk P) s).artifacts, a ∈ s.artifacts ∨ MidArt P n a)
        ∧ FinAcc P (cs.foldl (processChunk P) s) := by
  intro cs
  induction cs with
  | nil =>
    intro s _ hacc
    refine ⟨fun a ha => Or.inl ha, hacc.1, ?_, hacc.2.2⟩
    intro c hc
    rw [hacc.2.1 c hc]
    exact hn
  | cons c cs ih =>
    intro s hpat hacc
    obtain ⟨hc0, hcn, hclast, hpat'⟩ := hpat
    obtain ⟨hsum, hall, hlt⟩ := hacc
    rw [List.foldl_cons]
    have hmn : (s.current_data.map List.length).sum = s.current_data.length * n :=
      sum_map_length_const hall
    by_cases hf : P ≤ (s.current_rows : Int) + (c.length : Int)
    · -- the chunk triggers a flush
      have hlenA : ((s.current_data ++ [c]).flatten).length
          = s.current_rows + c.length := by
        rw [List.length_flatten, List.map_append, List.sum_append, hsum]
        simp
      have hmid : MidArt P n ((s.current_data ++ [c]).flatten) := by
        refine ⟨by omega, by rw [hlenA]; push_cast; omega, s.current_data.length, ?_, ?_⟩
        · rw [hlenA, hsum, hmn, Nat.succ_mul]
          omega
        · rcases hlt with hnil | hsmall
          · right; simp [hnil]
          · left
            rw [hsum, hmn] at hsmall
            exact hsmall
      rw [processChunk_flush P s c hf]
      have hrec := ih _ hpat'
        (goodAcc_empty P n (s.file_counter + 1)
          (s.artifacts ++ [(s.current_data ++ [c]).flatten]))
      refine ⟨?_, hrec.2⟩
      intro a ha
      rcases hrec.1 a ha with hmem | hm
      · simp only [List.mem_append, List.mem_singleton] at hmem
        rcases hmem with hold | hnew
        · exact Or.inl hold
        · exact Or.inr (hnew ▸ hmid)
      · exact Or.inr hm
    · -- no flush: the chunk is buffered
      push_neg at hf
      rw [processChunk_buffer P s c hf]
      rcases hclast with hnil | hfull
      · -- c was the final chunk; the loop ends here
        subst hnil
        simp only [List.foldl_nil]
        refine ⟨fun a ha => Or.inl ha, ?_, ?_, Or.inr (by push_cast; omega)⟩
        · simp [hsum]
        · intro d hd
          rcases List.mem_append.mp hd with h1 | h2
          · rw [hall d h1]; exact hn
          · rw [List.mem_singleton.mp h2]; exact hc0
      · -- c is a full chunk; the invariant is maintained
        refine ih _ hpat' ⟨by simp [hsum], ?_, Or.inr (by push_cast; omega)⟩
        intro d hd
        rcases List.mem_append.mp hd with h1 | h2
        · exact hall d h1
        · rw [List.mem_singleton.mp h2]; exact hfull

/-! ## Artifact-level corollaries -/

theorem finishState_flatten (s : SplitState α) :
    (finishState s).flatten = s.artifacts.flatten ++ s.current_data.flatten := by
  unfold finishState
  by_cases hd : s.current_data.isEmpty
  · rw [if_pos hd]
    have : s.current_data = [] := List.isEmpty_iff.mp hd
    simp [this]
  · rw [if_neg hd]
    simp [List.flatten_append]

/-- Round trip: concatenating the artifacts in part order gives back the
input record sequence. -/
theorem convert_flatten (P : Int) (l : List α) :
    (convert_csv_to_excel P l).flatten = l := by
  unfold convert_csv_to_excel
  rw [finishState_flatten, foldl_flatten]
  simp [initState, chunksOf_flatten]

/-- Conservation of rows: the artifact row counts sum to the input length. -/
theorem convert_length_sum (P : Int) (l : List α) :
    ((convert_csv_to_excel P l).map List.length).sum = l.length := by
  rw [← List.length_flatten, convert_flatten]

/-- An input of at most one chunk is a single chunk. -/
theorem chunksOf_of_le (n : Nat) (l : List α) (h : l ≠ [])
    (hlen : l.length ≤ max n 1) : chunksOf n l = [l] := by
  rw [chunksOf_ne_nil n l h, List.take_of_length_le hlen,
    List.drop_eq_nil_of_le hlen, chunksOf_nil]

/-- Every artifact of a run is either a mid-loop flush (`MidArt`) or the
final undersized flush (nonempty, with fewer than `rows_per_file` rows), and
every artifact other than the last one is a mid-loop flush. -/
theorem convert_artifact_classify (P : Int) (l : List α) :
    (∀ a ∈ convert_csv_to_excel P l,
        MidArt P chunk_size a ∨ (0 < a.length ∧ (a.length : Int) < P)) ∧
    (∀ a ∈ (convert_csv_to_excel P l).dropLast, MidArt P chunk_size a) := by
  have hn : 0 < chunk_size := by norm_num [chunk_size]
  have hpat := chunksOf_pat chunk_size (by norm_num [chunk_size]) l
  have hmas := loop_master P chunk_size hn (chunksOf chunk_size l) initState hpat
    (goodAcc_empty P chunk_size 1 [])
  obtain ⟨hmem, hfin⟩ := hmas
  obtain ⟨hfsum, hfpos, hflt⟩ := hfin
  have hinit : (initState : SplitState α).artifacts = [] := rfl
  unfold convert_csv_to_excel finishState
  by_cases hd : ((chunksOf chunk_size l).foldl (processChunk P) initState).current_data.isEmpty
  · rw [if_pos hd]
    have hmid : ∀ a ∈ ((chunksOf chunk_size l).foldl (processChunk P) initState).artifacts,
        MidArt P chunk_size a := by
      intro a ha
      rcases hmem a ha with h0 | h1
      · rw [hinit] at h0
        exact absurd h0 (List.not_mem_nil a)
      · exact h1
    exact ⟨fun a ha => Or.inl (hmid a ha),
      fun a ha => hmid a (List.dropLast_subset _ ha)⟩
  · rw [if_neg hd]
    have hcd : ((chunksOf chunk_size l).foldl (processChunk P) initState).current_data ≠ [] := by
      intro h
      rw [h] at hd
      exact hd rfl
    have hflt' : (((chunksOf chunk_size l).foldl (processChunk P) initState).current_rows : Int)
        < P := by
      rcases hflt with h | h
      · exact absurd h hcd
      · exact h
    have hmid : ∀ a ∈ ((chunksOf chunk_size l).foldl (processChunk P) initState).artifacts,
        MidArt P chunk_size a := by
      intro a ha
      rcases hmem a ha with h0 | h1
      · rw [hinit] at h0
        exact absurd h0 (List.not_mem_nil a)
      · exact h1
    have htail : 0 < (((chunksOf chunk_size l).foldl (processChunk P) initState).current_data.flatten).length
        ∧ ((((chunksOf chunk_size l).foldl (processChunk P) initState).current_data.flatten).length : Int) < P := by
      constructor
      · cases hcd' : ((chunksOf chunk_size l).foldl (processChunk P) initState).current_data with
        | nil => exact absurd hcd' hcd
        | cons c cs =>
          have hcpos : 0 < c.length := hfpos c (by rw [hcd']; exact List.mem_cons_self c cs)
          simp only [List.flatten_cons, List.length_append]
          omega
      · rw [List.length_flatten, ← hfsum]
        exact hflt'
    constructor
    · intro a ha
      rcases List.mem_append.mp ha with h1 | h2
      · exact Or.inl (hmid a h1)
      · rw [List.mem_singleton.mp h2]
        exact Or.inr htail
    · intro a ha
      rw [List.dropLast_concat] at ha
      exact hmid a ha

/-- Numeric bound on a mid-loop artifact: with the 50,000-row chunks of the
source, a flush below a threshold of at most 1,000,000 never exceeds
1,000,000 rows (the buffered full chunks are a multiple of 50,000 rows). -/
theorem midArt_le_million (P : Int) (hP : P ≤ 1000000) (a : List α)
    (h : MidArt P chunk_size a) : a.length ≤ 1000000 := by
  obtain ⟨hpos, hge, m, hle, hm⟩ := h
  rcases hm with hlt | h0
  · have h1 : m * chunk_size < 1000000 := by
      have := lt_of_lt_of_le hlt hP
      exact_mod_cast this
    simp only [chunk_size] at h1 hle
    omega
  · subst h0
    simp only [chunk_size] at hle
    omega

/-- With a non-positive threshold the `≥` check passes after every chunk, so
each chunk is flushed on its own. -/
theorem foldl_flushAll (P : Int) (hP : P ≤ 0) (cs : List (List α)) :
    ∀ s : SplitState α, s.current_data = [] → s.current_rows = 0 →
      (cs.foldl (processChunk P) s).artifacts = s.artifacts ++ cs
        ∧ (cs.foldl (processChunk P) s).current_data = []
        ∧ (cs.foldl (processChunk P) s).current_rows = 0 := by
  induction cs with
  | nil =>
    intro s h1 h2
    simp [h1, h2]
  | cons c cs ih =>
    intro s h1 h2
    rw [List.foldl_cons, processChunk_flush P s c (by rw [h2]; push_cast; omega)]
    obtain ⟨ha, hd, hr⟩ := ih (SplitState.mk [] 0 (s.file_counter + 1)
      (s.artifacts ++ [(s.current_data ++ [c]).flatten])) rfl rfl
    refine ⟨?_, hd, hr⟩
    rw [ha, h1]
    simp

/-- With a non-positive `rows_per_file`, the artifacts are exactly the
chunks of the input. -/
theorem convert_flushAll (P : Int) (hP : P ≤ 0) (l : List α) :
    convert_csv_to_excel P l = chunksOf chunk_size l := by
  unfold convert_csv_to_excel
  obtain ⟨ha, hd, hr⟩ := foldl_flushAll P hP (chunksOf chunk_size l) initState rfl rfl
  unfold finishState
  rw [if_pos (by rw [hd]; rfl), ha]
  simp [initState]

/-! ## The claims -/

/-- C1: for every input record sequence with `R` total records and every
`rowsPerFile` `P` with `P ≤ 1,000,000`, the splitter writes artifacts whose
row counts sum exactly to `R` — every input row appears in exactly one
artifact, none dropped or duplicated. -/
theorem claim_C1 (P : Int) (hP : P ≤ 1000000) (l : List α) :
    ((convert_csv_to_excel P l).map List.length).sum = l.length :=
  convert_length_sum P l

theorem claim_C1_witness :
    (500000 : Int) ≤ 1000000 ∧
      ((convert_csv_to_excel 500000 ([0, 1, 2] : List Nat)).map List.length).sum
        = ([0, 1, 2] : List Nat).length :=
  ⟨by norm_num, claim_C1 500000 (by norm_num) [0, 1, 2]⟩

/-- C2: for every input and every `rowsPerFile` `P ≤ 1,000,000`, no written
artifact contains more than 1,048,576 rows.  (In fact no artifact exceeds
1,000,000 rows: the buffered full chunks total a multiple of 50,000 below
`P`, so a flush is at most the least multiple of 50,000 that reaches `P`.) -/
theorem claim_C2 (P : Int) (hP : P ≤ 1000000) (l : List α) :
    ∀ a ∈ convert_csv_to_excel P l, a.length ≤ 1048576 := by
  intro a ha
  rcases (convert_artifact_classify P l).1 a ha with hm | hs
  · have := midArt_le_million P hP a hm
    omega
  · have h1 : (a.length : Int) < 1000000 := lt_of_lt_of_le hs.2 hP
    have h2 : a.length < 1000000 := by exact_mod_cast h1
    omega

theorem claim_C2_witness :
    (500000 : Int) ≤ 1000000 ∧
      (([0, 1, 2] : List Nat) ∈ convert_csv_to_excel 500000 ([0, 1, 2] : List Nat)
        → ([0, 1, 2] : List Nat).length ≤ 1048576) :=
  ⟨by norm_num, fun hm => claim_C2 500000 (by norm_num) [0, 1, 2] [0, 1, 2] hm⟩

/-- C3: for every input and every positive `rowsPerFile` `P`, every artifact
except possibly the last contains at least `P` rows, and every artifact
contains at most `P + chunk_size − 1` rows, because the `≥` threshold is
checked only at chunk boundaries. -/
theorem claim_C3 (P : Int) (hP : 0 < P) (l : List α) :
    (∀ a ∈ (convert_csv_to_excel P l).dropLast, P ≤ (a.length : Int)) ∧
      (∀ a ∈ convert_csv_to_excel P l,
        (a.length : Int) ≤ P + (chunk_size : Int) - 1) := by
  obtain ⟨hall, hdrop⟩ := convert_artifact_classify P l
  constructor
  · intro a ha
    exact (hdrop a ha).2.1
  · intro a ha
    rcases hall a ha with hm | hs
    · obtain ⟨hpos, hge, m, hle, hm'⟩ := hm
      have hle' : (a.length : Int) ≤ ((m + 1) * chunk_size : Nat) := by
        exact_mod_cast hle
      rcases hm' with hlt | h0
      · push_cast at hle' hlt
        simp only [chunk_size] at hle' hlt ⊢
        push_cast
        omega
      · subst h0
        push_cast at hle'
        simp only [chunk_size] at hle' ⊢
        push_cast
        omega
    · have h1 : (a.length : Int) < P := hs.2
      simp only [chunk_size]
      push_cast
      omega

theorem claim_C3_witness :
    (0 : Int) < 2 ∧
      ((∀ a ∈ (convert_csv_to_excel 2 ([0, 1, 2] : List Nat)).dropLast,
          (2 : Int) ≤ (a.length : Int)) ∧
        (∀ a ∈ convert_csv_to_excel 2 ([0, 1, 2] : List Nat),
          (a.length : Int) ≤ 2 + (chunk_size : Int) - 1)) :=
  ⟨by norm_num, claim_C3 2 (by norm_num) [0, 1, 2]⟩

/-- C4: concatenating all produced artifacts in increasing part order
reconstructs the original record sequence exactly — same rows, same order,
same values. -/
theorem claim_C4 (P : Int) (l : List α) :
    (convert_csv_to_excel P l).flatten = l :=
  convert_flatten P l

/-- C6: every CLI `--rows` value strictly above 1,000,000 (for example
2,000,000) is clamped to exactly 1,000,000 and the warning is printed; every
value of at most 1,000,000 passes through unchanged with no warning; the
default when the flag is omitted is 500,000. -/
theorem claim_C6 :
    (∀ r : Int, r > 1000000 → clampRows r = 1000000 ∧ rowsWarning r = true) ∧
      clampRows 2000000 = 1000000 ∧
      (∀ r : Int, r ≤ 1000000 → clampRows r = r ∧ rowsWarning r = false) ∧
      ROWS_DEFAULT = 500000 := by
  refine ⟨?_, by norm_num [clampRows], ?_, rfl⟩
  · intro r hr
    constructor
    · unfold clampRows
      rw [if_pos (by omega)]
    · unfold rowsWarning
      simp only [decide_eq_true_eq]
      omega
  · intro r hr
    constructor
    · unfold clampRows
      rw [if_neg (by omega)]
    · unfold rowsWarning
      simp only [decide_eq_false_iff_not]
      omega

theorem claim_C6_witness :
    ((2000000 : Int) > 1000000
        ∧ (clampRows 2000000 = 1000000 ∧ rowsWarning 2000000 = true)) ∧
      ((7 : Int) ≤ 1000000 ∧ (clampRows 7 = 7 ∧ rowsWarning 7 = false)) :=
  ⟨⟨by norm_num, claim_C6.1 2000000 (by norm_num)⟩,
    ⟨by norm_num, claim_C6.2.2.1 7 (by norm_num)⟩⟩

/-- C7: when the input path does not exist, the program exits with status 1
before any processing and writes no artifacts. -/
theorem claim_C7 (r : Int) (l : List α) :
    run_program false r l = (1, []) :=
  rfl

/-- C8: the splitter is deterministic — two runs on the same input record
sequence with the same `rowsPerFile` produce identical artifact lists (same
number of artifacts, same rows in each). -/
theorem claim_C8 (P₁ P₂ : Int) (l₁ l₂ : List α) (hP : P₁ = P₂) (hl : l₁ = l₂) :
    convert_csv_to_excel P₁ l₁ = convert_csv_to_excel P₂ l₂ := by
  rw [hP, hl]

theorem claim_C8_witness :
    (500000 : Int) = 500000 ∧ ([0, 1] : List Nat) = [0, 1] ∧
      convert_csv_to_excel 500000 ([0, 1] : List Nat)
        = convert_csv_to_excel 500000 ([0, 1] : List Nat) :=
  ⟨rfl, rfl, claim_C8 500000 500000 [0, 1] [0, 1] rfl rfl⟩

/-- C9: every artifact the splitter writes is non-empty — an in-loop flush
happens only with at least one freshly read non-empty chunk buffered, and the
trailing flush happens only when the accumulator is non-empty. -/
theorem claim_C9 (P : Int) (l : List α) :
    ∀ a ∈ convert_csv_to_excel P l, 0 < a.length := by
  intro a ha
  rcases (convert_artifact_classify P l).1 a ha with hm | hs
  · exact hm.1
  · exact hs.1

theorem claim_C9_witness :
    ([0, 1, 2] : List Nat) ∈ convert_csv_to_excel 2 ([0, 1, 2] : List Nat)
      ∧ 0 < ([0, 1, 2] : List Nat).length := by
  have hc : chunksOf chunk_size ([0, 1, 2] : List Nat) = [[0, 1, 2]] :=
    chunksOf_of_le chunk_size [0, 1, 2] (by simp) (by simp [chunk_size])
  have he : convert_csv_to_excel (2 : Int) ([0, 1, 2] : List Nat) = [[0, 1, 2]] := by
    unfold convert_csv_to_excel
    rw [hc]
    rfl
  have hm : ([0, 1, 2] : List Nat) ∈ convert_csv_to_excel 2 ([0, 1, 2] : List Nat) := by
    rw [he]
    exact List.mem_singleton.mpr rfl
  exact ⟨hm, claim_C9 2 [0, 1, 2] [0, 1, 2] hm⟩

/-- C10: neither the CLI nor the splitter enforces positivity of
`rowsPerFile`: a value `r ≤ 0` passes the clamp unchanged, the run still
completes, and since the `≥` threshold is met after every chunk, each chunk
is flushed as its own separate artifact. -/
theorem claim_C10 (r : Int) (hr : r ≤ 0) (l : List α) :
    clampRows r = r ∧ convert_csv_to_excel r l = chunksOf chunk_size l := by
  constructor
  · unfold clampRows
    rw [if_neg (by omega)]
  · exact convert_flushAll r hr l

theorem claim_C10_witness :
    (0 : Int) ≤ 0 ∧
      (clampRows 0 = 0 ∧
        convert_csv_to_excel 0 ([0, 1] : List Nat) = chunksOf chunk_size [0, 1]) :=
  ⟨le_refl 0, claim_C10 0 (le_refl 0) [0, 1]⟩

/-- C5, counterexample: with `P = 3` and an input of `R = P + 1 = 4` records,
the whole input fits in one 50,000-row chunk, so the first flush already
contains all 4 rows and only ONE artifact is produced — there is no second
artifact with the remainder, contrary to the claim. -/
theorem claim_C5_counterexample :
    convert_csv_to_excel (3 : Int) ([0, 1, 2, 3] : List Nat) = [[0, 1, 2, 3]] := by
  have hc : chunksOf chunk_size ([0, 1, 2, 3] : List Nat) = [[0, 1, 2, 3]] :=
    chunksOf_of_le chunk_size [0, 1, 2, 3] (by simp) (by simp [chunk_size])
  unfold convert_csv_to_excel
  rw [hc]
  rfl

/-- C5, amended: for every positive `rowsPerFile` `P`, an input with `R = 0`
records produces zero artifacts, and an input with `R = P` produces exactly
one artifact with all `P` rows.  An input with `R = P + 1` produces either a
single artifact with all `P + 1` rows, or two artifacts — the first with
exactly `P` rows and the second with the 1 remaining row (the two-artifact
case needs the first flush to fall on a 50,000-row chunk boundary). -/
theorem claim_C5_amended (P : Int) (hP : 1 ≤ P) (l : List α) :
    (l = [] → convert_csv_to_excel P l = []) ∧
    ((l.length : Int) = P → convert_csv_to_excel P l = [l]) ∧
    ((l.length : Int) = P + 1 →
      convert_csv_to_excel P l = [l] ∨
        ∃ a b, convert_csv_to_excel P l = [a, b] ∧ (a.length : Int) = P
          ∧ b.length = 1 ∧ a ++ b = l) := by
  have hflat := convert_flatten P l
  have hsum := convert_length_sum P l
  obtain ⟨hall, hdrop⟩ := convert_artifact_classify P l
  refine ⟨?_, ?_, ?_⟩
  · intro h
    subst h
    unfold convert_csv_to_excel
    rw [chunksOf_nil]
    rfl
  · intro hR
    cases hA : convert_csv_to_excel P l with
    | nil =>
      exfalso
      rw [hA] at hsum
      simp only [List.map_nil, List.sum_nil] at hsum
      omega
    | cons a rest =>
      cases rest with
      | nil =>
        rw [hA] at hflat
        simp only [List.flatten_cons, List.flatten_nil, List.append_nil] at hflat
        rw [hflat]
      | cons b rest2 =>
        exfalso
        rw [hA] at hsum hdrop hall
        have hamem : a ∈ (a :: b :: rest2).dropLast := by
          rw [List.dropLast_cons₂]
          exact List.mem_cons_self _ _
        have haP : P ≤ (a.length : Int) := (hdrop a hamem).2.1
        have hbpos : 0 < b.length := by
          rcases hall b (by simp) with hm | hs
          · exact hm.1
          · exact hs.1
        simp only [List.map_cons, List.sum_cons] at hsum
        omega
  · intro hR
    cases hA : convert_csv_to_excel P l with
    | nil =>
      exfalso
      rw [hA] at hsum
      simp only [List.map_nil, List.sum_nil] at hsum
      omega
    | cons a rest =>
      cases rest with
      | nil =>
        left
        rw [hA] at hflat
        simp only [List.flatten_cons, List.flatten_nil, List.append_nil] at hflat
        rw [hflat]
      | cons b rest2 =>
        cases rest2 with
        | nil =>
          right
          rw [hA] at hflat hsum hdrop hall
          have hamem : a ∈ ([a, b] : List (List α)).dropLast := by
            rw [List.dropLast_cons₂]
            exact List.mem_cons_self _ _
          have haP : P ≤ (a.length : Int) := (hdrop a hamem).2.1
          have hbpos : 0 < b.length := by
            rcases hall b (by simp) with hm | hs
            · exact hm.1
            · exact hs.1
          simp only [List.map_cons, List.map_nil, List.sum_cons, List.sum_nil,
            Nat.add_zero] at hsum
          simp only [List.flatten_cons, List.flatten_nil, List.append_nil] at hflat
          refine ⟨a, b, rfl, ?_, ?_, hflat⟩
          · omega
          · omega
        | cons c rest3 =>
          exfalso
          rw [hA] at hsum hdrop hall
          have hamem : a ∈ (a :: b :: c :: rest3).dropLast := by
            rw [List.dropLast_cons₂]
            exact List.mem_cons_self _ _
          have hbmem : b ∈ (a :: b :: c :: rest3).dropLast := by
            rw [List.dropLast_cons₂, List.dropLast_cons₂]
            exact List.mem_cons_of_mem _ (List.mem_cons_self _ _)
          have haP : P ≤ (a.length : Int) := (hdrop a hamem).2.1
          have hbP : P ≤ (b.length : Int) := (hdrop b hbmem).2.1
          have hcpos : 0 < c.length := by
            rcases hall c (by simp) with hm | hs
            · exact hm.1
            · exact hs.1
          simp only [List.map_cons, List.sum_cons] at hsum
          omega

theorem claim_C5_witness :
    (1 : Int) ≤ 2 ∧
      ((([0, 1] : List Nat) = [] → convert_csv_to_excel 2 ([0, 1] : List Nat) = []) ∧
        ((([0, 1] : List Nat).length : Int) = 2 →
          convert_csv_to_excel 2 ([0, 1] : List Nat) = [[0, 1]]) ∧
        ((([0, 1] : List Nat).length : Int) = 2 + 1 →
          convert_csv_to_excel 2 ([0, 1] : List Nat) = [[0, 1]] ∨
            ∃ a b, convert_csv_to_excel 2 ([0, 1] : List Nat) = [a, b]
              ∧ (a.length : Int) = 2 ∧ b.length = 1 ∧ a ++ b = [0, 1])) :=
  ⟨by norm_num, claim_C5_amended 2 (by norm_num) [0, 1]⟩

end CsvToExcel
